import Mathlib

/-!
Shallow embedding of the focalboard mention-notification engine:
the notifymentions backend (BlockChanged, deliverMentionNotification,
safeCallListener) and the plugindelivery MentionDeliver, together with
the data model they operate on.  External collaborators (store,
permission service, delivery transport, broadcast adapter, listeners)
are modelled as oracle functions; side effects are recorded in an
explicit trace.
-/

namespace NotifyMentions

/-! ## Data model (from `server/services/notify` and `server/model`) -/

/-- Action kind of a change event (notify.Add / notify.Update / notify.Delete). -/
inductive Action where
  | add
  | update
  | delete
deriving DecidableEq, Repr

/-- Board visibility type (model.BoardTypeOpen / model.BoardTypePrivate). -/
inductive BoardType where
  | typeOpen
  | typePrivate
deriving DecidableEq, Repr

/-- Block kind; the backend only reacts to text, comment and image blocks,
all other kinds are collapsed into `typeOther`. -/
inductive BlockType where
  | typeText
  | typeComment
  | typeImage
  | typeOther
deriving DecidableEq, Repr

structure Board where
  ID : String
  teamID : String
  type : BoardType
deriving DecidableEq, Repr

structure Card where
  ID : String
  title : String
deriving DecidableEq, Repr

structure Block where
  type : BlockType
  title : String
deriving DecidableEq, Repr

/-- model.BoardMember: board membership row with scheme capability bits.
The event field ModifiedBy is a BoardMember describing the acting user. -/
structure BoardMember where
  userID : String
  boardID : String
  schemeAdmin : Bool := false
  schemeEditor : Bool := false
  schemeCommenter : Bool := false
  schemeViewer : Bool := false
deriving DecidableEq, Repr

/-- mm_model.User: only the fields the core reads. -/
structure User where
  id : String
  username : String := ""
deriving DecidableEq, Repr

/-- notify.BlockChangeEvent.  BlockOld and the board, card and acting-user
records are nullable; the changed block itself is always present. -/
structure BlockChangeEvent where
  action : Action
  teamID : String
  board : Option Board
  card : Option Card
  blockChanged : Block
  blockOld : Option Block
  modifiedBy : Option BoardMember
deriving DecidableEq, Repr

/-- Permissions consulted by the backend (model.PermissionViewTeam,
model.PermissionViewBoard). -/
inductive Perm where
  | viewTeam
  | viewBoard
deriving DecidableEq, Repr

/-! ## Mention extraction

The extractor lives in the same Go package but outside the provided
sources, so it is modelled from the spec. -/

/-- Modelled from the spec: an identifier character, usable inside a
username token following an at sign. -/
def isMentionChar (c : Char) : Bool :=
  c.isAlphanum || c = '_' || c = '-' || c = '.'

/-- Modelled from the spec: scan characters, treating an at sign followed
by a maximal nonempty run of identifier characters as a candidate
username.  `acc` is `some run` (reversed) while inside a candidate run. -/
def scanAux : List Char → Option (List Char) → List String
  | [], none => []
  | [], some acc => if acc.isEmpty then [] else [String.mk acc.reverse]
  | c :: rest, none =>
      if c = '@' then scanAux rest (some []) else scanAux rest none
  | c :: rest, some acc =>
      if isMentionChar c then scanAux rest (some (c :: acc))
      else
        (if acc.isEmpty then [] else [String.mk acc.reverse]) ++
          (if c = '@' then scanAux rest (some []) else scanAux rest none)

/-- Modelled from the spec: extractMentions scans the text of a block for
at-mentions and returns the set of candidate usernames; a nil block or
empty text yields the empty set. -/
def extractMentions (block : Option Block) : List String :=
  match block with
  | none => []
  | some b => (scanAux b.title.data none).dedup

example : extractMentions (some { type := BlockType.typeText, title := "hi @alice and @bob-x" })
    = ["alice", "bob-x"] := by decide

example : extractMentions none = [] := rfl

/-! ## Excerpt extraction (outside the provided sources; modelled from the
spec: a window of surrounding text around the first occurrence of the
mention, bounded by character limits; best-effort empty when absent). -/

structure Limits where
  beforeChars : Nat
  afterChars : Nat
deriving DecidableEq, Repr

/-- Modelled from the spec: default excerpt limits. -/
def newLimits : Limits := { beforeChars := 64, afterChars := 64 }

/-- Does the second list start with the first one? -/
def startsWithChars : List Char → List Char → Bool
  | [], _ => true
  | _ :: _, [] => false
  | p :: ps, c :: cs => p = c && startsWithChars ps cs

/-- Index of the first occurrence of a pattern in a character list. -/
def findSub (pat : List Char) : List Char → Nat → Option Nat
  | [], _ => none
  | l@(_ :: rest), i =>
      if startsWithChars pat l then some i else findSub pat rest (i + 1)

/-- Modelled from the spec: extractText locates the first occurrence of
the at-mention and returns a window of surrounding text bounded by the
limits; empty when the username is not present. -/
def extractText (text username : String) (limits : Limits) : String :=
  let pat := ('@' :: username.data)
  match findSub pat text.data 0 with
  | none => ""
  | some i =>
      let start := i - limits.beforeChars
      let stop := i + pat.length + limits.afterChars
      String.mk ((text.data.drop start).take (stop - start))

example : extractText "hi @alice and @bob" "alice" { beforeChars := 3, afterChars := 4 }
    = "hi @alice and" := by decide

/-! ## Errors

Go errors are modelled as inductives; wrapping with fmt.Errorf is
modelled by the constructor carrying the wrapped cause. -/

/-- Errors returned by the Store collaborator. -/
inductive StoreErr where
  | notFound
  | other (msg : String)
deriving DecidableEq, Repr

/-- store.IsErrNotFound, applied to a possibly-nil error. -/
def isStoreErrNotFound : Option StoreErr → Bool
  | some .notFound => true
  | _ => false

/-- Errors returned by delivery.UserByUsername. -/
inductive DelErr where
  | notFound
  | other (msg : String)
deriving DecidableEq, Repr

/-- delivery.IsErrNotFound. -/
def isDelErrNotFound : DelErr → Bool
  | .notFound => true
  | .other _ => false

/-- The errors deliverMentionNotification can return.  The four
constructors between `invalidUser` and `nonBoardMember` wrap
ErrMentionPermission in the Go code. -/
inductive MentionErr where
  | lookupFailed (cause : DelErr)
  | invalidUser
  | nonTeamMember (actorID mentionedID : String)
  | viewerCannotMention (actorID mentionedID : String)
  | nonBoardMember (actorID mentionedID : String)
  | saveMemberFailed (userID boardID cause : String)
  | deliveryFailed (cause : String)
deriving DecidableEq, Repr

/-- Does the error wrap ErrMentionPermission? -/
def MentionErr.isPermission : MentionErr → Bool
  | .invalidUser => true
  | .nonTeamMember _ _ => true
  | .viewerCannotMention _ _ => true
  | .nonBoardMember _ _ => true
  | _ => false

/-! ## Listeners and side-effect traces -/

/-- Result of one listener OnMention call: normal return or a fault. -/
inductive ListenerOutcome where
  | ok
  | panicked
deriving DecidableEq, Repr

/-- A registered MentionListener, modelled by its observable behaviour on
OnMention. -/
structure Listener where
  onMention : String → BlockChangeEvent → ListenerOutcome

/-- Side effects performed against the collaborators, in order. -/
inductive Effect where
  | userLookup (username : String)
  | permTeamCheck (userID teamID : String)
  | permBoardCheck (userID boardID : String)
  | getMember (boardID userID : String)
  | saveMemberCall (m : BoardMember)
  | broadcast (teamID boardID : String) (m : BoardMember)
  | deliverCall (userID : String)
  | listenerCall (i : Nat) (userID : String) (out : ListenerOutcome)
deriving DecidableEq, Repr

/-! ## Collaborator oracles -/

/-- Oracle model of the external collaborators.  The store is a state
machine over an abstract state type `σ`; the permission service and
delivery transport are pure oracles. -/
structure Env (σ : Type) where
  getMemberForBoard : σ → String → String → Option BoardMember × Option StoreErr
  saveMember : σ → BoardMember → Except String BoardMember × σ
  hasPermissionToTeam : String → String → Perm → Bool
  hasPermissionToBoard : String → String → Perm → Bool
  userByUsername : String → Except DelErr User
  mentionDeliver : User → String → BlockChangeEvent → String × Option String

/-- Result of deliverMentionNotification: the Go (userID, error) pair,
plus the threaded store state and the side-effect trace. -/
structure DeliverResult (σ : Type) where
  userID : String
  err : Option MentionErr
  state : σ
  trace : List Effect

/-! ## deliverMentionNotification (mentions_backend.go lines 163-237) -/

/-- The final delivery step: the backend returns the result of
delivery.MentionDeliver directly (mentions_backend.go line 236). -/
def finishDeliver (env : Env σ) (s : σ) (mentionedUser : User) (extract : String)
    (evt : BlockChangeEvent) (t : List Effect) : DeliverResult σ :=
  let r := env.mentionDeliver mentionedUser extract evt
  { userID := r.1, err := r.2.map MentionErr.deliveryFailed, state := s,
    trace := t ++ [Effect.deliverCall mentionedUser.id] }

/-- Embedding of Backend.deliverMentionNotification. -/
def deliverMentionNotification (env : Env σ) (s : σ) (username extract : String)
    (evt : BlockChangeEvent) : DeliverResult σ :=
  let t0 : List Effect := [Effect.userLookup username]
  match env.userByUsername username with
  | .error e =>
      if isDelErrNotFound e then
        -- not really an error; could just be someone typed @sometext
        { userID := "", err := none, state := s, trace := t0 }
      else
        { userID := "", err := some (.lookupFailed e), state := s, trace := t0 }
  | .ok mentionedUser =>
      match evt.modifiedBy with
      | none =>
          { userID := "", err := some .invalidUser, state := s, trace := t0 }
      | some modifiedBy =>
          -- the Go code dereferences evt.Board here; BlockChanged has already
          -- checked it is non-nil, so the default is unreachable from BlockChanged
          let board := evt.board.getD { ID := "", teamID := "", type := .typeOpen }
          if board.type = .typeOpen then
            -- public board rules
            if modifiedBy.schemeAdmin || modifiedBy.schemeEditor || modifiedBy.schemeCommenter then
              let t1 := t0 ++ [Effect.permTeamCheck mentionedUser.id evt.teamID]
              if !(env.hasPermissionToTeam mentionedUser.id evt.teamID .viewTeam) then
                { userID := "", err := some (.nonTeamMember modifiedBy.userID mentionedUser.id),
                  state := s, trace := t1 }
              else
                -- add mentioned user to board (if not already a member)
                let lookup := env.getMemberForBoard s board.ID mentionedUser.id
                let t2 := t1 ++ [Effect.getMember board.ID mentionedUser.id]
                if lookup.1.isNone || isStoreErrNotFound lookup.2 then
                  -- currently all memberships are created as editors by default
                  let newBoardMember : BoardMember :=
                    { userID := mentionedUser.id, boardID := board.ID, schemeEditor := true }
                  match env.saveMember s newBoardMember with
                  | (.error serr, s2) =>
                      { userID := "",
                        err := some (.saveMemberFailed mentionedUser.id board.ID serr),
                        state := s2, trace := t2 ++ [Effect.saveMemberCall newBoardMember] }
                  | (.ok savedMember, s2) =>
                      finishDeliver env s2 mentionedUser extract evt
                        (t2 ++ [Effect.saveMemberCall newBoardMember,
                                Effect.broadcast evt.teamID board.ID savedMember])
                else
                  -- skipping auto-add; already a member
                  finishDeliver env s mentionedUser extract evt t2
            else if modifiedBy.schemeViewer then
              -- viewer should not have gotten this far
              { userID := "", err := some (.viewerCannotMention modifiedBy.userID mentionedUser.id),
                state := s, trace := t0 }
            else
              -- this is a guest
              let t1 := t0 ++ [Effect.permBoardCheck mentionedUser.id board.ID]
              if !(env.hasPermissionToBoard mentionedUser.id board.ID .viewBoard) then
                { userID := "", err := some (.nonBoardMember modifiedBy.userID mentionedUser.id),
                  state := s, trace := t1 }
              else
                finishDeliver env s mentionedUser extract evt t1
          else
            -- private board rules
            if modifiedBy.schemeViewer then
              { userID := "", err := some (.viewerCannotMention modifiedBy.userID mentionedUser.id),
                state := s, trace := t0 }
            else
              -- everyone else can mention board members
              let t1 := t0 ++ [Effect.permBoardCheck mentionedUser.id board.ID]
              if !(env.hasPermissionToBoard mentionedUser.id board.ID .viewBoard) then
                { userID := "", err := some (.nonBoardMember modifiedBy.userID mentionedUser.id),
                  state := s, trace := t1 }
              else
                finishDeliver env s mentionedUser extract evt t1

/-! ## BlockChanged (mentions_backend.go lines 95-151) -/

/-- Embedding of safeCallListener: the recover boundary converts a
listener fault into a logged error; the outcome is recorded, never
propagated. -/
def safeCallListener (listener : Listener) (userID : String) (evt : BlockChangeEvent) :
    ListenerOutcome :=
  listener.onMention userID evt

/-- Listener fan-out over the point-in-time snapshot of the registry. -/
def fanOut (listeners : List Listener) (userID : String) (evt : BlockChangeEvent) :
    List Effect :=
  listeners.enum.map fun p => Effect.listenerCall p.1 userID (safeCallListener p.2 userID evt)

/-- Aggregated result of one BlockChanged call: collected per-username
errors (the merror), final store state, and the side-effect trace. -/
structure ChangedResult (σ : Type) where
  errs : List (String × MentionErr)
  state : σ
  trace : List Effect

/-- One iteration of the BlockChanged mention loop for a username that
survived the already-mentioned-before check (lines 129-148). -/
def processMention (env : Env σ) (listeners : List Listener) (s : σ)
    (evt : BlockChangeEvent) (username : String) :
    List (String × MentionErr) × σ × List Effect :=
  let extract := extractText evt.blockChanged.title username newLimits
  let r := deliverMentionNotification env s username extract evt
  let errs := match r.err with
    | some e => [(username, e)]
    | none => []
  if r.userID = "" then
    -- was an at sign followed by something other than a username
    (errs, r.state, r.trace)
  else
    (errs, r.state, r.trace ++ fanOut listeners r.userID evt)

/-- The mention loop of BlockChanged (lines 123-149), over the extracted
mention list, skipping mentions already present in the old text. -/
def mentionLoop (env : Env σ) (listeners : List Listener) (evt : BlockChangeEvent)
    (oldMentions : List String) :
    List String → σ → List (String × MentionErr) → List Effect → ChangedResult σ
  | [], s, errs, tr => { errs := errs, state := s, trace := tr }
  | u :: rest, s, errs, tr =>
      if oldMentions.contains u then
        -- the mention already existed; no need to notify again
        mentionLoop env listeners evt oldMentions rest s errs tr
      else
        let r := processMention env listeners s evt u
        mentionLoop env listeners evt oldMentions rest r.2.1 (errs ++ r.1) (tr ++ r.2.2)

/-- Embedding of Backend.BlockChanged. -/
def BlockChanged (env : Env σ) (listeners : List Listener) (s : σ)
    (evt : BlockChangeEvent) : ChangedResult σ :=
  if evt.board.isNone || evt.card.isNone then
    { errs := [], state := s, trace := [] }
  else if evt.action = .delete then
    { errs := [], state := s, trace := [] }
  else
    match evt.blockChanged.type with
    | .typeText | .typeComment | .typeImage =>
        let mentions := extractMentions (some evt.blockChanged)
        if mentions.isEmpty then
          { errs := [], state := s, trace := [] }
        else
          let oldMentions := extractMentions evt.blockOld
          mentionLoop env listeners evt oldMentions mentions s [] []
    | .typeOther =>
        { errs := [], state := s, trace := [] }

/-- merror ErrorOrNil: nil unless at least one error was appended. -/
def errorOrNil (errs : List (String × MentionErr)) :
    Option (List (String × MentionErr)) :=
  if errs.isEmpty then none else some errs

/-- The new-minus-old mention set a BlockChanged call processes. -/
def newOnly (evt : BlockChangeEvent) : List String :=
  (extractMentions (some evt.blockChanged)).filter
    fun u => !(extractMentions evt.blockOld).contains u

/-- Specification-level projection of the mention loop: the per-username
delivery outcome (the returned error), in processing order, with the
store state threaded exactly as in the loop. -/
def mentionOutcomes (env : Env σ) (evt : BlockChangeEvent) (oldMentions : List String) :
    List String → σ → List (String × Option MentionErr)
  | [], _ => []
  | u :: rest, s =>
      if oldMentions.contains u then
        mentionOutcomes env evt oldMentions rest s
      else
        let r := deliverMentionNotification env s u
          (extractText evt.blockChanged.title u newLimits) evt
        (u, r.err) :: mentionOutcomes env evt oldMentions rest r.state

/-! ## PluginDelivery.MentionDeliver (mention_deliver.go lines 16-34) -/

structure Channel where
  id : String
deriving DecidableEq, Repr

structure Post where
  userId : String
  channelId : String
  message : String
deriving DecidableEq, Repr

/-- Oracle model of the plugin API used by PluginDelivery. -/
structure PluginAPI where
  getUserByID : String → Except String User
  getDirectChannel : String → String → Except String Channel
  createPost : Post → Option String

/-- Modelled from the spec (utils.MakeCardLink is outside the provided
sources): a stable deep link to the card. -/
def MakeCardLink (serverRoot teamID boardID cardID : String) : String :=
  serverRoot ++ "/team/" ++ teamID ++ "/" ++ boardID ++ "/0/0/" ++ cardID

/-- Modelled from the spec (formatMessage is outside the provided
sources): a human-readable message embedding the author, excerpt, card
title, link and originating block. -/
def formatMessage (author extract cardTitle link : String) (block : Block) : String :=
  "@" ++ author ++ " mentioned you in the card [" ++ cardTitle ++ "](" ++ link ++ "): "
    ++ extract ++ block.title

/-- Embedding of PluginDelivery.MentionDeliver.  The Go code dereferences
evt.ModifiedBy, evt.Board and evt.Card; the backend only calls it with
those fields non-nil, so the defaults here are unreachable from
BlockChanged. -/
def MentionDeliver (api : PluginAPI) (botID serverRoot : String) (mentionedUser : User)
    (extract : String) (evt : BlockChangeEvent) : String × Option String :=
  let modifiedBy := evt.modifiedBy.getD { userID := "", boardID := "" }
  match api.getUserByID modifiedBy.userID with
  | .error e => ("", some ("cannot find user: " ++ e))
  | .ok author =>
      match api.getDirectChannel mentionedUser.id botID with
      | .error e => ("", some ("cannot get direct channel: " ++ e))
      | .ok channel =>
          let board := evt.board.getD { ID := "", teamID := "", type := .typeOpen }
          let card := evt.card.getD { ID := "", title := "" }
          let link := MakeCardLink serverRoot board.teamID board.ID card.ID
          let post : Post :=
            { userId := botID
              channelId := channel.id
              message := formatMessage author.username extract card.title link evt.blockChanged }
          (mentionedUser.id, api.createPost post)

/-! ## Reference store

Modelled from the spec Store contract: GetMemberForBoard returns the
member or a NotFound error; SaveMember inserts the row. -/

/-- Is this membership row for the given board and user? -/
def isRowFor (boardID userID : String) (m : BoardMember) : Bool :=
  m.boardID = boardID && m.userID = userID

def refGetMember (rows : List BoardMember) (boardID userID : String) :
    Option BoardMember × Option StoreErr :=
  match rows.find? (isRowFor boardID userID) with
  | some m => (some m, none)
  | none => (none, some .notFound)

def refSaveMember (rows : List BoardMember) (m : BoardMember) :
    Except String BoardMember × List BoardMember :=
  (.ok m, rows ++ [m])

/-- Backend environment wired to the reference store; permissions and
delivery remain oracle parameters. -/
def refEnv (tperm : String → String → Perm → Bool) (bperm : String → String → Perm → Bool)
    (users : String → Except DelErr User)
    (deliver : User → String → BlockChangeEvent → String × Option String) :
    Env (List BoardMember) :=
  { getMemberForBoard := refGetMember
    saveMember := refSaveMember
    hasPermissionToTeam := tperm
    hasPermissionToBoard := bperm
    userByUsername := users
    mentionDeliver := deliver }

/-! ## Trace predicates used by the specifications -/

/-- The username of a user-lookup effect. -/
def lookupNameOf : Effect → Option String
  | .userLookup u => some u
  | _ => none

/-- Is this effect a SaveMember call? -/
def isSaveEffect : Effect → Bool
  | .saveMemberCall _ => true
  | _ => false

/-- Is this effect a BroadcastMemberChange call? -/
def isBroadcastEffect : Effect → Bool
  | .broadcast _ _ _ => true
  | _ => false

/-! ## Concrete fixtures for witnesses and counterexamples -/

def tpermAll : String → String → Perm → Bool := fun _ _ _ => true

def bpermAll : String → String → Perm → Bool := fun _ _ _ => true

def alice : User := { id := "alice-id", username := "alice" }

def usersAlice : String → Except DelErr User :=
  fun name => if name = "alice" then .ok alice else .error .notFound

def deliverOk : User → String → BlockChangeEvent → String × Option String :=
  fun u _ _ => (u.id, none)

def boardA : Board := { ID := "board-1", teamID := "team-1", type := .typeOpen }

def cardA : Card := { ID := "card-1", title := "Card One" }

def actorAdmin : BoardMember := { userID := "actor-1", boardID := "board-1", schemeAdmin := true }

def actorViewer : BoardMember := { userID := "actor-1", boardID := "board-1", schemeViewer := true }

def aliceRow : BoardMember := { userID := "alice-id", boardID := "board-1", schemeEditor := true }

def evtA : BlockChangeEvent :=
  { action := .update, teamID := "team-1", board := some boardA, card := some cardA
    blockChanged := { type := .typeText, title := "hi @alice please review" }
    blockOld := none, modifiedBy := some actorAdmin }

def envA : Env (List BoardMember) := refEnv tpermAll bpermAll usersAlice deliverOk

def listenerOk : Listener := { onMention := fun _ _ => .ok }

def listenerBad : Listener := { onMention := fun _ _ => .panicked }

/-- Plugin API whose CreatePost step fails after resolving the author and
the direct channel. -/
def apiPostFails : PluginAPI :=
  { getUserByID := fun uid => .ok { id := uid, username := "actor" }
    getDirectChannel := fun _ _ => .ok { id := "chan-1" }
    createPost := fun _ => some "transport error" }

def envPostFails : Env (List BoardMember) :=
  refEnv tpermAll bpermAll usersAlice (MentionDeliver apiPostFails "bot-1" "https://x")

/-- Team-permission oracle granting view-team only to the mentioned user,
not to the actor. -/
def tpermMentionedOnly : String → String → Perm → Bool := fun uid _ _ => uid == "alice-id"

def envMentionedOnly : Env (List BoardMember) :=
  refEnv tpermMentionedOnly bpermAll usersAlice deliverOk

/-! ## Theorems -/

/-- Claim C9: for every change event in which the board is absent, the card is
absent, the action is a delete, or the changed block kind is not one of
text, comment, image, BlockChanged returns nil and performs no side
effects: no store read or write, no delivery attempt, no broadcast and no
listener invocation (empty trace, unchanged state, empty error list). -/
theorem blockChanged_guard_noop {σ : Type} (env : Env σ) (listeners : List Listener)
    (s : σ) (evt : BlockChangeEvent)
    (h : evt.board = none ∨ evt.card = none ∨ evt.action = .delete ∨
      evt.blockChanged.type = .typeOther) :
    BlockChanged env listeners s evt = { errs := [], state := s, trace := [] } := by
  rcases h with h | h | h | h <;> simp [BlockChanged, h]

/-- Witness for C9 at a concrete non-content block kind. -/
theorem blockChanged_guard_noop_witness :
    BlockChanged envA [listenerOk] [] { evtA with blockChanged := { type := .typeOther, title := "hi @alice" } }
      = { errs := [], state := [], trace := [] } :=
  blockChanged_guard_noop envA [listenerOk] []
    { evtA with blockChanged := { type := .typeOther, title := "hi @alice" } }
    (Or.inr (Or.inr (Or.inr rfl)))

/-- Claim C7: a change event whose acting-user record (ModifiedBy) is missing
makes any mention that reaches the authorization step (the mentioned
username resolved to a real user) fail with the hard permission error
ErrMentionPermission, and no mention is ever delivered without a known
actor: the delivery transport is never called, the state is unchanged
and the returned user id is empty. -/
theorem deliver_requires_known_actor {σ : Type} (env : Env σ) (s : σ)
    (username extract : String) (evt : BlockChangeEvent)
    (h : evt.modifiedBy = none) :
    (∀ u, env.userByUsername username = .ok u →
      (deliverMentionNotification env s username extract evt).err
        = some MentionErr.invalidUser) ∧
    MentionErr.invalidUser.isPermission = true ∧
    (deliverMentionNotification env s username extract evt).userID = "" ∧
    (deliverMentionNotification env s username extract evt).state = s ∧
    ∀ uid, Effect.deliverCall uid ∉ (deliverMentionNotification env s username extract evt).trace := by
  rcases hq : env.userByUsername username with e | u
  · by_cases hn : isDelErrNotFound e <;>
      simp [deliverMentionNotification, h, hq, hn, MentionErr.isPermission]
  · simp [deliverMentionNotification, h, hq, MentionErr.isPermission]

/-- Witness for C7 on a concrete event with no acting user. -/
theorem deliver_requires_known_actor_witness :
    (∀ u, envA.userByUsername "alice" = .ok u →
      (deliverMentionNotification envA [] "alice" "x" { evtA with modifiedBy := none }).err
        = some MentionErr.invalidUser) ∧
    MentionErr.invalidUser.isPermission = true ∧
    (deliverMentionNotification envA [] "alice" "x" { evtA with modifiedBy := none }).userID = "" ∧
    (deliverMentionNotification envA [] "alice" "x" { evtA with modifiedBy := none }).state = [] ∧
    ∀ uid, Effect.deliverCall uid ∉
      (deliverMentionNotification envA [] "alice" "x" { evtA with modifiedBy := none }).trace :=
  deliver_requires_known_actor envA [] "alice" "x" { evtA with modifiedBy := none } rfl

/-- Claim C6: a mention whose username resolves to a real user, made by an
actor with viewer-only capability (SchemeViewer set, no
admin/editor/commenter capability), yields the permission error on both
open and private boards, and performs no delivery and no membership
mutation: the trace stops at the user lookup and the state is unchanged. -/
theorem viewer_only_actor_denied {σ : Type} (env : Env σ) (s : σ)
    (username extract : String) (evt : BlockChangeEvent) (b : Board) (mb : BoardMember) (u : User)
    (hb : evt.board = some b) (hmb : evt.modifiedBy = some mb)
    (hu : env.userByUsername username = .ok u)
    (hv : mb.schemeViewer = true) (ha : mb.schemeAdmin = false)
    (he : mb.schemeEditor = false) (hc : mb.schemeCommenter = false) :
    (deliverMentionNotification env s username extract evt).err
      = some (.viewerCannotMention mb.userID u.id) ∧
    (MentionErr.viewerCannotMention mb.userID u.id).isPermission = true ∧
    (deliverMentionNotification env s username extract evt).userID = "" ∧
    (deliverMentionNotification env s username extract evt).state = s ∧
    (deliverMentionNotification env s username extract evt).trace
      = [Effect.userLookup username] := by
  cases hbt : b.type <;>
    simp [deliverMentionNotification, hb, hmb, hu, hv, ha, he, hc, hbt,
      MentionErr.isPermission]

/-- Witness for C6 on a concrete open board with a viewer-only actor. -/
theorem viewer_only_actor_denied_witness :
    (deliverMentionNotification envA [] "alice" "x" { evtA with modifiedBy := some actorViewer }).err
      = some (.viewerCannotMention actorViewer.userID alice.id) ∧
    (MentionErr.viewerCannotMention actorViewer.userID alice.id).isPermission = true ∧
    (deliverMentionNotification envA [] "alice" "x" { evtA with modifiedBy := some actorViewer }).userID = "" ∧
    (deliverMentionNotification envA [] "alice" "x" { evtA with modifiedBy := some actorViewer }).state = [] ∧
    (deliverMentionNotification envA [] "alice" "x" { evtA with modifiedBy := some actorViewer }).trace
      = [Effect.userLookup "alice"] :=
  viewer_only_actor_denied envA [] "alice" "x" { evtA with modifiedBy := some actorViewer }
    boardA actorViewer alice rfl rfl rfl rfl rfl rfl rfl

/-- Claim C2 counterexample: the claim says the team-membership check is
evaluated against the acting user.  Concretely, with a permission oracle
granting view-team to the mentioned user but not to the actor, the
actor-side check is false, yet the mention is delivered with no
permission error: the code evaluates the check on the mentioned user. -/
theorem team_check_not_on_actor_cex :
    tpermMentionedOnly actorAdmin.userID evtA.teamID .viewTeam = false ∧
    (deliverMentionNotification envMentionedOnly [aliceRow] "alice" "x" evtA).err = none ∧
    Effect.deliverCall alice.id
      ∈ (deliverMentionNotification envMentionedOnly [aliceRow] "alice" "x" evtA).trace := by
  decide

/-- Claim C2 amended: on an open board with an admin/editor/commenter actor,
the team-membership check is evaluated against the mentioned user: if
the mentioned user lacks view-team permission, a permission error is
returned and nothing is delivered (trace stops at the permission check,
state unchanged). -/
theorem team_check_on_mentioned_user {σ : Type} (env : Env σ) (s : σ)
    (username extract : String) (evt : BlockChangeEvent) (b : Board) (mb : BoardMember) (u : User)
    (hb : evt.board = some b) (hbt : b.type = .typeOpen)
    (hmb : evt.modifiedBy = some mb)
    (hq : (mb.schemeAdmin || mb.schemeEditor || mb.schemeCommenter) = true)
    (hu : env.userByUsername username = .ok u)
    (hp : env.hasPermissionToTeam u.id evt.teamID .viewTeam = false) :
    (deliverMentionNotification env s username extract evt).err
      = some (.nonTeamMember mb.userID u.id) ∧
    (MentionErr.nonTeamMember mb.userID u.id).isPermission = true ∧
    (deliverMentionNotification env s username extract evt).userID = "" ∧
    (deliverMentionNotification env s username extract evt).state = s ∧
    (deliverMentionNotification env s username extract evt).trace
      = [Effect.userLookup username, Effect.permTeamCheck u.id evt.teamID] := by
  simp [deliverMentionNotification, hb, hbt, hmb, hq, hu, hp, MentionErr.isPermission]

/-- Witness for the amended C2: a mentioned user without view-team
permission is rejected even though the actor has it. -/
theorem team_check_on_mentioned_user_witness :
    (deliverMentionNotification (refEnv (fun uid _ _ => uid == "actor-1") bpermAll usersAlice deliverOk)
        [] "alice" "x" evtA).err = some (.nonTeamMember actorAdmin.userID alice.id) ∧
    (MentionErr.nonTeamMember actorAdmin.userID alice.id).isPermission = true ∧
    (deliverMentionNotification (refEnv (fun uid _ _ => uid == "actor-1") bpermAll usersAlice deliverOk)
        [] "alice" "x" evtA).userID = "" ∧
    (deliverMentionNotification (refEnv (fun uid _ _ => uid == "actor-1") bpermAll usersAlice deliverOk)
        [] "alice" "x" evtA).state = [] ∧
    (deliverMentionNotification (refEnv (fun uid _ _ => uid == "actor-1") bpermAll usersAlice deliverOk)
        [] "alice" "x" evtA).trace
      = [Effect.userLookup "alice", Effect.permTeamCheck alice.id evtA.teamID] :=
  team_check_on_mentioned_user (refEnv (fun uid _ _ => uid == "actor-1") bpermAll usersAlice deliverOk)
    [] "alice" "x" evtA boardA actorAdmin alice rfl rfl rfl rfl rfl (by decide)

/-- Claim C10: on an open board with a qualifying actor, when the store lookup
returns a nil member together with a non-NotFound error, the code still
attempts SaveMember insertion, and the lookup error is never surfaced:
if insertion and delivery succeed the call returns the delivered user id
with no error at all. -/
theorem lookup_error_not_surfaced {σ : Type} (env : Env σ) (s : σ)
    (username extract : String) (evt : BlockChangeEvent) (b : Board) (mb : BoardMember) (u : User)
    (msg : String)
    (hb : evt.board = some b) (hbt : b.type = .typeOpen)
    (hmb : evt.modifiedBy = some mb)
    (hq : (mb.schemeAdmin || mb.schemeEditor || mb.schemeCommenter) = true)
    (hu : env.userByUsername username = .ok u)
    (hp : env.hasPermissionToTeam u.id evt.teamID .viewTeam = true)
    (hg : env.getMemberForBoard s b.ID u.id = (none, some (.other msg))) :
    Effect.saveMemberCall { userID := u.id, boardID := b.ID, schemeEditor := true }
      ∈ (deliverMentionNotification env s username extract evt).trace ∧
    (∀ m2 s2 uid,
      env.saveMember s { userID := u.id, boardID := b.ID, schemeEditor := true } = (.ok m2, s2) →
      env.mentionDeliver u extract evt = (uid, none) →
      (deliverMentionNotification env s username extract evt).err = none ∧
      (deliverMentionNotification env s username extract evt).userID = uid ∧
      (deliverMentionNotification env s username extract evt).state = s2) := by
  constructor
  · rcases hs : env.saveMember s { userID := u.id, boardID := b.ID, schemeEditor := true }
      with ⟨r, s2⟩
    cases r <;>
      simp [deliverMentionNotification, finishDeliver, hb, hbt, hmb, hq, hu, hp, hg, hs,
        isStoreErrNotFound]
  · intro m2 s2 uid hs hd
    simp [deliverMentionNotification, finishDeliver, hb, hbt, hmb, hq, hu, hp, hg, hs, hd,
      isStoreErrNotFound]

/-- Witness for C10: a store whose lookup fails with a plain error still
gets the membership insertion and a clean successful delivery. -/
theorem lookup_error_not_surfaced_witness :
    Effect.saveMemberCall { userID := alice.id, boardID := boardA.ID, schemeEditor := true }
      ∈ (deliverMentionNotification
          { envA with getMemberForBoard := fun _ _ _ => (none, some (.other "db down")) }
          [] "alice" "x" evtA).trace ∧
    (∀ m2 s2 uid,
      ({ envA with getMemberForBoard := fun _ _ _ => (none, some (.other "db down")) } :
          Env (List BoardMember)).saveMember []
          { userID := alice.id, boardID := boardA.ID, schemeEditor := true } = (.ok m2, s2) →
      ({ envA with getMemberForBoard := fun _ _ _ => (none, some (.other "db down")) } :
          Env (List BoardMember)).mentionDeliver alice "x" evtA = (uid, none) →
      (deliverMentionNotification
          { envA with getMemberForBoard := fun _ _ _ => (none, some (.other "db down")) }
          [] "alice" "x" evtA).err = none ∧
      (deliverMentionNotification
          { envA with getMemberForBoard := fun _ _ _ => (none, some (.other "db down")) }
          [] "alice" "x" evtA).userID = uid ∧
      (deliverMentionNotification
          { envA with getMemberForBoard := fun _ _ _ => (none, some (.other "db down")) }
          [] "alice" "x" evtA).state = s2) :=
  lookup_error_not_surfaced
    { envA with getMemberForBoard := fun _ _ _ => (none, some (.other "db down")) }
    [] "alice" "x" evtA boardA actorAdmin alice "db down" rfl rfl rfl rfl rfl rfl rfl

/-- Claim C3: against the reference store, auto-enroll is idempotent and its
broadcast is coupled to insertion.  If the membership lookup finds a row,
no SaveMember call and no broadcast happen and the store is unchanged; if
it finds none, exactly one insertion and exactly one broadcast happen,
the store gains exactly one row (with editor capability) for that (board,
user) pair, and a second event mentioning the same user performs no
further SaveMember call, no further broadcast, and no state change. -/
theorem auto_enroll_idempotent
    (tperm bperm : String → String → Perm → Bool)
    (users : String → Except DelErr User)
    (deliver : User → String → BlockChangeEvent → String × Option String)
    (rows : List BoardMember) (username extract : String) (evt : BlockChangeEvent)
    (b : Board) (mb : BoardMember) (u : User)
    (hb : evt.board = some b) (hbt : b.type = .typeOpen)
    (hmb : evt.modifiedBy = some mb)
    (hq : (mb.schemeAdmin || mb.schemeEditor || mb.schemeCommenter) = true)
    (hu : users username = .ok u)
    (hp : tperm u.id evt.teamID .viewTeam = true) :
    ((∃ m, rows.find? (isRowFor b.ID u.id) = some m) →
      (deliverMentionNotification (refEnv tperm bperm users deliver) rows username extract evt).trace.countP
          isSaveEffect = 0 ∧
      (deliverMentionNotification (refEnv tperm bperm users deliver) rows username extract evt).trace.countP
          isBroadcastEffect = 0 ∧
      (deliverMentionNotification (refEnv tperm bperm users deliver) rows username extract evt).state
          = rows) ∧
    (rows.find? (isRowFor b.ID u.id) = none →
      (deliverMentionNotification (refEnv tperm bperm users deliver) rows username extract evt).trace.countP
          isSaveEffect = 1 ∧
      (deliverMentionNotification (refEnv tperm bperm users deliver) rows username extract evt).trace.countP
          isBroadcastEffect = 1 ∧
      (deliverMentionNotification (refEnv tperm bperm users deliver) rows username extract evt).state
          = rows ++ [{ userID := u.id, boardID := b.ID, schemeEditor := true }] ∧
      (deliverMentionNotification (refEnv tperm bperm users deliver) rows username extract evt).state.countP
          (isRowFor b.ID u.id) = 1 ∧
      (∀ username2 extract2, users username2 = .ok u →
        (deliverMentionNotification (refEnv tperm bperm users deliver)
            (rows ++ [{ userID := u.id, boardID := b.ID, schemeEditor := true }])
            username2 extract2 evt).trace.countP isSaveEffect = 0 ∧
        (deliverMentionNotification (refEnv tperm bperm users deliver)
            (rows ++ [{ userID := u.id, boardID := b.ID, schemeEditor := true }])
            username2 extract2 evt).trace.countP isBroadcastEffect = 0 ∧
        (deliverMentionNotification (refEnv tperm bperm users deliver)
            (rows ++ [{ userID := u.id, boardID := b.ID, schemeEditor := true }])
            username2 extract2 evt).state
          = rows ++ [{ userID := u.id, boardID := b.ID, schemeEditor := true }])) := by
  constructor
  · rintro ⟨m, hm⟩
    simp [deliverMentionNotification, finishDeliver, refEnv, refGetMember, hb, hbt, hmb, hq,
      hu, hp, hm, isStoreErrNotFound, isSaveEffect, isBroadcastEffect]
  · intro hnone
    have hcount0 : rows.countP (isRowFor b.ID u.id) = 0 :=
      List.countP_eq_zero.mpr (List.find?_eq_none.mp hnone)
    have hfind2 : (rows ++ [({ userID := u.id, boardID := b.ID, schemeEditor := true } :
        BoardMember)]).find? (isRowFor b.ID u.id)
        = some { userID := u.id, boardID := b.ID, schemeEditor := true } := by
      rw [List.find?_append, hnone]
      simp [isRowFor]
    refine ⟨?_, ?_, ?_, ?_, ?_⟩
    · simp [deliverMentionNotification, finishDeliver, refEnv, refGetMember, refSaveMember,
        hb, hbt, hmb, hq, hu, hp, hnone, isStoreErrNotFound, isSaveEffect, isBroadcastEffect]
    · simp [deliverMentionNotification, finishDeliver, refEnv, refGetMember, refSaveMember,
        hb, hbt, hmb, hq, hu, hp, hnone, isStoreErrNotFound, isSaveEffect, isBroadcastEffect]
    · simp [deliverMentionNotification, finishDeliver, refEnv, refGetMember, refSaveMember,
        hb, hbt, hmb, hq, hu, hp, hnone, isStoreErrNotFound]
    · simp [deliverMentionNotification, finishDeliver, refEnv, refGetMember, refSaveMember,
        hb, hbt, hmb, hq, hu, hp, hnone, isStoreErrNotFound, List.countP_append, hcount0,
        isRowFor]
    · intro username2 extract2 hu2
      refine ⟨?_, ?_, ?_⟩ <;>
        simp [deliverMentionNotification, finishDeliver, refEnv, refGetMember, refSaveMember,
          hb, hbt, hmb, hq, hu2, hp, hfind2, isStoreErrNotFound, isSaveEffect,
          isBroadcastEffect]

/-- Witness for C3 on a concrete open board, admin actor and an initially
empty store: one row and one broadcast after two mentions of alice. -/
theorem auto_enroll_idempotent_witness :
    ((∃ m, ([] : List BoardMember).find? (isRowFor boardA.ID alice.id) = some m) →
      (deliverMentionNotification (refEnv tpermAll bpermAll usersAlice deliverOk) [] "alice" "x" evtA).trace.countP
          isSaveEffect = 0 ∧
      (deliverMentionNotification (refEnv tpermAll bpermAll usersAlice deliverOk) [] "alice" "x" evtA).trace.countP
          isBroadcastEffect = 0 ∧
      (deliverMentionNotification (refEnv tpermAll bpermAll usersAlice deliverOk) [] "alice" "x" evtA).state
          = []) ∧
    (([] : List BoardMember).find? (isRowFor boardA.ID alice.id) = none →
      (deliverMentionNotification (refEnv tpermAll bpermAll usersAlice deliverOk) [] "alice" "x" evtA).trace.countP
          isSaveEffect = 1 ∧
      (deliverMentionNotification (refEnv tpermAll bpermAll usersAlice deliverOk) [] "alice" "x" evtA).trace.countP
          isBroadcastEffect = 1 ∧
      (deliverMentionNotification (refEnv tpermAll bpermAll usersAlice deliverOk) [] "alice" "x" evtA).state
          = [] ++ [{ userID := alice.id, boardID := boardA.ID, schemeEditor := true }] ∧
      (deliverMentionNotification (refEnv tpermAll bpermAll usersAlice deliverOk) [] "alice" "x" evtA).state.countP
          (isRowFor boardA.ID alice.id) = 1 ∧
      (∀ username2 extract2, usersAlice username2 = .ok alice →
        (deliverMentionNotification (refEnv tpermAll bpermAll usersAlice deliverOk)
            ([] ++ [{ userID := alice.id, boardID := boardA.ID, schemeEditor := true }])
            username2 extract2 evtA).trace.countP isSaveEffect = 0 ∧
        (deliverMentionNotification (refEnv tpermAll bpermAll usersAlice deliverOk)
            ([] ++ [{ userID := alice.id, boardID := boardA.ID, schemeEditor := true }])
            username2 extract2 evtA).trace.countP isBroadcastEffect = 0 ∧
        (deliverMentionNotification (refEnv tpermAll bpermAll usersAlice deliverOk)
            ([] ++ [{ userID := alice.id, boardID := boardA.ID, schemeEditor := true }])
            username2 extract2 evtA).state
          = [] ++ [{ userID := alice.id, boardID := boardA.ID, schemeEditor := true }])) :=
  auto_enroll_idempotent tpermAll bpermAll usersAlice deliverOk [] "alice" "x" evtA
    boardA actorAdmin alice rfl rfl rfl rfl rfl rfl

/-! ## Structural lemmas about the mention loop -/

/-- Every branch of deliverMentionNotification records exactly one user
lookup, for the processed username, and nothing else that a user lookup
projects to. -/
theorem deliver_trace_lookups {σ : Type} (env : Env σ) (s : σ) (username extract : String)
    (evt : BlockChangeEvent) :
    (deliverMentionNotification env s username extract evt).trace.filterMap lookupNameOf
      = [username] := by
  simp only [deliverMentionNotification, finishDeliver]
  repeat' split
  all_goals simp [lookupNameOf]

/-- No branch of deliverMentionNotification invokes a listener. -/
theorem deliver_trace_no_listener {σ : Type} (env : Env σ) (s : σ) (username extract : String)
    (evt : BlockChangeEvent) (i : Nat) (uid : String) (out : ListenerOutcome) :
    Effect.listenerCall i uid out ∉ (deliverMentionNotification env s username extract evt).trace := by
  simp only [deliverMentionNotification, finishDeliver]
  repeat' split
  all_goals simp

/-- The collected errors of one mention iteration are exactly the
delivery error, tagged with the username. -/
theorem processMention_errs {σ : Type} (env : Env σ) (L : List Listener) (s : σ)
    (evt : BlockChangeEvent) (u : String) :
    (processMention env L s evt u).1
      = ((deliverMentionNotification env s u (extractText evt.blockChanged.title u newLimits)
          evt).err.map fun e => (u, e)).toList := by
  simp only [processMention]
  repeat' split
  all_goals simp_all

/-- The store state after one mention iteration is the delivery state. -/
theorem processMention_state {σ : Type} (env : Env σ) (L : List Listener) (s : σ)
    (evt : BlockChangeEvent) (u : String) :
    (processMention env L s evt u).2.1
      = (deliverMentionNotification env s u (extractText evt.blockChanged.title u newLimits)
          evt).state := by
  simp only [processMention]
  repeat' split
  all_goals rfl

/-- Listener fan-out records no user lookups. -/
theorem fanOut_filterMap_lookups (L : List Listener) (uid : String) (evt : BlockChangeEvent) :
    (fanOut L uid evt).filterMap lookupNameOf = [] := by
  simp [fanOut, List.filterMap_map, lookupNameOf, Function.comp]

/-- Every effect of the fan-out is a listener call carrying the delivered
user id. -/
theorem fanOut_mem_shape (L : List Listener) (uid : String) (evt : BlockChangeEvent)
    (e : Effect) (he : e ∈ fanOut L uid evt) :
    ∃ i out, e = Effect.listenerCall i uid out := by
  simp only [fanOut, List.mem_map] at he
  obtain ⟨p, _, hp⟩ := he
  exact ⟨p.1, safeCallListener p.2 uid evt, hp.symm⟩

/-- One mention iteration records exactly one user lookup, for its
username. -/
theorem processMention_trace_lookups {σ : Type} (env : Env σ) (L : List Listener) (s : σ)
    (evt : BlockChangeEvent) (u : String) :
    (processMention env L s evt u).2.2.filterMap lookupNameOf = [u] := by
  simp only [processMention]
  split
  · exact deliver_trace_lookups env s u _ evt
  · rw [List.filterMap_append, deliver_trace_lookups env s u _ evt, fanOut_filterMap_lookups]
    rfl

/-- Any listener call recorded by one mention iteration carries a
non-empty user id. -/
theorem processMention_listener_uid {σ : Type} (env : Env σ) (L : List Listener) (s : σ)
    (evt : BlockChangeEvent) (u : String) (i : Nat) (uid : String) (out : ListenerOutcome)
    (hmem : Effect.listenerCall i uid out ∈ (processMention env L s evt u).2.2) :
    uid ≠ "" := by
  revert hmem
  simp only [processMention]
  split
  · intro hmem
    exact absurd hmem (deliver_trace_no_listener env s u _ evt i uid out)
  · rename_i hne
    intro hmem
    rcases List.mem_append.mp hmem with hmem | hmem
    · exact absurd hmem (deliver_trace_no_listener env s u _ evt i uid out)
    · obtain ⟨j, o, hj⟩ := fanOut_mem_shape L _ evt _ hmem
      cases hj
      exact hne

/-- The mention loop appends to the error accumulator exactly the
per-username failures, in processing order. -/
theorem mentionLoop_errs {σ : Type} (env : Env σ) (L : List Listener) (evt : BlockChangeEvent)
    (old : List String) :
    ∀ us (s : σ) errs tr,
      (mentionLoop env L evt old us s errs tr).errs
        = errs ++ (mentionOutcomes env evt old us s).filterMap
            (fun p => p.2.map fun e => (p.1, e)) := by
  intro us
  induction us with
  | nil =>
      intro s errs tr
      simp [mentionLoop, mentionOutcomes]
  | cons u rest ih =>
      intro s errs tr
      by_cases hc : u ∈ old
      · have hm : old.contains u = true := by simpa using hc
        simp only [mentionLoop, mentionOutcomes, if_pos hm]
        exact ih s errs tr
      · have hbn : ¬ old.contains u = true := by simpa using hc
        simp only [mentionLoop, mentionOutcomes, if_neg hbn]
        rw [ih, processMention_errs, processMention_state]
        cases hres : (deliverMentionNotification env s u
            (extractText evt.blockChanged.title u newLimits) evt).err <;>
          simp [hres, List.append_assoc]

/-- The usernames of the per-username outcomes are exactly the new-only
usernames, in order. -/
theorem mentionOutcomes_fst {σ : Type} (env : Env σ) (evt : BlockChangeEvent)
    (old : List String) :
    ∀ us (s : σ),
      (mentionOutcomes env evt old us s).map Prod.fst
        = us.filter fun u => !old.contains u := by
  intro us
  induction us with
  | nil => intro s; simp [mentionOutcomes]
  | cons u rest ih =>
      intro s
      by_cases hc : u ∈ old
      · have hm : old.contains u = true := by simpa using hc
        simp only [mentionOutcomes, if_pos hm]
        rw [ih]
        simp [hc]
      · have hbn : ¬ old.contains u = true := by simpa using hc
        simp only [mentionOutcomes, if_neg hbn, List.map_cons]
        rw [ih]
        simp [hc]

/-- The user lookups recorded by the mention loop are exactly the
processed usernames, in order. -/
theorem mentionLoop_trace_lookups {σ : Type} (env : Env σ) (L : List Listener)
    (evt : BlockChangeEvent) (old : List String) :
    ∀ us (s : σ) errs tr,
      (mentionLoop env L evt old us s errs tr).trace.filterMap lookupNameOf
        = tr.filterMap lookupNameOf ++ (us.filter fun u => !old.contains u) := by
  intro us
  induction us with
  | nil =>
      intro s errs tr
      simp [mentionLoop]
  | cons u rest ih =>
      intro s errs tr
      by_cases hc : u ∈ old
      · have hm : old.contains u = true := by simpa using hc
        simp only [mentionLoop, if_pos hm]
        rw [ih]
        simp [hc]
      · have hbn : ¬ old.contains u = true := by simpa using hc
        simp only [mentionLoop, if_neg hbn]
        rw [ih, List.filterMap_append, processMention_trace_lookups]
        simp [hc, List.append_assoc]

/-- A mention list entirely contained in the old mentions is skipped
wholesale: the loop is the identity on its accumulators. -/
theorem mentionLoop_all_skipped {σ : Type} (env : Env σ) (L : List Listener)
    (evt : BlockChangeEvent) (old : List String) :
    ∀ us (s : σ) errs tr, (∀ u ∈ us, old.contains u) →
      mentionLoop env L evt old us s errs tr = { errs := errs, state := s, trace := tr } := by
  intro us
  induction us with
  | nil => intro s errs tr _; simp [mentionLoop]
  | cons u rest ih =>
      intro s errs tr h
      have hm : old.contains u = true := h u (by simp)
      simp only [mentionLoop, if_pos hm]
      exact ih s errs tr fun v hv => h v (by simp [hv])

/-- The collected errors and the final store state of the mention loop do
not depend on the listener snapshot. -/
theorem mentionLoop_listener_indep {σ : Type} (env : Env σ) (L L' : List Listener)
    (evt : BlockChangeEvent) (old : List String) :
    ∀ us (s : σ) errs tr tr',
      (mentionLoop env L evt old us s errs tr).errs
          = (mentionLoop env L' evt old us s errs tr').errs ∧
      (mentionLoop env L evt old us s errs tr).state
          = (mentionLoop env L' evt old us s errs tr').state := by
  intro us
  induction us with
  | nil => intro s errs tr tr'; simp [mentionLoop]
  | cons u rest ih =>
      intro s errs tr tr'
      by_cases hc : u ∈ old
      · have hm : old.contains u = true := by simpa using hc
        simp only [mentionLoop, if_pos hm]
        exact ih s errs tr tr'
      · have hbn : ¬ old.contains u = true := by simpa using hc
        simp only [mentionLoop, if_neg hbn]
        rw [processMention_errs, processMention_state, processMention_errs env L',
          processMention_state env L']
        exact ih _ _ _ _

/-- Listener calls recorded by the mention loop always carry a non-empty
user id, provided the accumulated trace already satisfies this. -/
theorem mentionLoop_listener_uid {σ : Type} (env : Env σ) (L : List Listener)
    (evt : BlockChangeEvent) (old : List String) :
    ∀ us (s : σ) errs tr,
      (∀ i uid out, Effect.listenerCall i uid out ∈ tr → uid ≠ "") →
      ∀ i uid out,
        Effect.listenerCall i uid out ∈ (mentionLoop env L evt old us s errs tr).trace →
        uid ≠ "" := by
  intro us
  induction us with
  | nil =>
      intro s errs tr h i uid out hmem
      simp only [mentionLoop] at hmem
      exact h i uid out hmem
  | cons u rest ih =>
      intro s errs tr h i uid out hmem
      by_cases hc : u ∈ old
      · have hm : old.contains u = true := by simpa using hc
        simp only [mentionLoop, if_pos hm] at hmem
        exact ih s errs tr h i uid out hmem
      · have hbn : ¬ old.contains u = true := by simpa using hc
        simp only [mentionLoop, if_neg hbn] at hmem
        refine ih _ _ _ ?_ i uid out hmem
        intro j vid o hv
        rcases List.mem_append.mp hv with hv | hv
        · exact h j vid o hv
        · exact processMention_listener_uid env L s evt u j vid o hv

/-- Once the guards pass, BlockChanged is the mention loop over the
extracted mentions (or a no-op when there are none). -/
theorem blockChanged_eq_loop {σ : Type} (env : Env σ) (L : List Listener) (s : σ)
    (evt : BlockChangeEvent) (b : Board) (c : Card)
    (hb : evt.board = some b) (hcard : evt.card = some c) (hd : evt.action ≠ .delete)
    (ht : evt.blockChanged.type = .typeText ∨ evt.blockChanged.type = .typeComment ∨
      evt.blockChanged.type = .typeImage) :
    BlockChanged env L s evt
      = if (extractMentions (some evt.blockChanged)).isEmpty then
          { errs := [], state := s, trace := [] }
        else
          mentionLoop env L evt (extractMentions evt.blockOld)
            (extractMentions (some evt.blockChanged)) s [] [] := by
  rcases ht with ht | ht | ht <;> simp [BlockChanged, hb, hcard, hd, ht]

/-- With the guards passed, the user lookups of a BlockChanged call are
exactly the new-minus-old usernames, in order. -/
theorem blockChanged_trace_lookups {σ : Type} (env : Env σ) (L : List Listener) (s : σ)
    (evt : BlockChangeEvent) (b : Board) (c : Card)
    (hb : evt.board = some b) (hcard : evt.card = some c) (hd : evt.action ≠ .delete)
    (ht : evt.blockChanged.type = .typeText ∨ evt.blockChanged.type = .typeComment ∨
      evt.blockChanged.type = .typeImage) :
    (BlockChanged env L s evt).trace.filterMap lookupNameOf = newOnly evt := by
  rw [blockChanged_eq_loop env L s evt b c hb hcard hd ht]
  by_cases he : (extractMentions (some evt.blockChanged)).isEmpty
  · have hnil : extractMentions (some evt.blockChanged) = [] := List.isEmpty_iff.mp he
    simp [he, newOnly, hnil]
  · rw [if_neg he, mentionLoop_trace_lookups]
    simp [newOnly]

/-- With the guards passed, the collected errors of a BlockChanged call
are the tagged per-username failures. -/
theorem blockChanged_errs_eq {σ : Type} (env : Env σ) (L : List Listener) (s : σ)
    (evt : BlockChangeEvent) (b : Board) (c : Card)
    (hb : evt.board = some b) (hcard : evt.card = some c) (hd : evt.action ≠ .delete)
    (ht : evt.blockChanged.type = .typeText ∨ evt.blockChanged.type = .typeComment ∨
      evt.blockChanged.type = .typeImage) :
    (BlockChanged env L s evt).errs
      = (mentionOutcomes env evt (extractMentions evt.blockOld)
          (extractMentions (some evt.blockChanged)) s).filterMap
          (fun p => p.2.map fun e => (p.1, e)) := by
  rw [blockChanged_eq_loop env L s evt b c hb hcard hd ht]
  by_cases he : (extractMentions (some evt.blockChanged)).isEmpty
  · have hnil : extractMentions (some evt.blockChanged) = [] := List.isEmpty_iff.mp he
    simp [he, hnil, mentionOutcomes]
  · rw [if_neg he, mentionLoop_errs]
    simp

/-- Claim C4: per-username failures in one BlockChanged call are collected
without short-circuiting: every username in the new-only set is processed
(in order, witnessed by the user lookups), the collected error list tags
each failing username with its cause, and the call returns nil exactly
when every processed username produced no error (delivered or was
benignly skipped). -/
theorem failures_collected_not_short_circuited {σ : Type} (env : Env σ) (L : List Listener)
    (s : σ) (evt : BlockChangeEvent) (b : Board) (c : Card)
    (hb : evt.board = some b) (hcard : evt.card = some c) (hd : evt.action ≠ .delete)
    (ht : evt.blockChanged.type = .typeText ∨ evt.blockChanged.type = .typeComment ∨
      evt.blockChanged.type = .typeImage) :
    (BlockChanged env L s evt).trace.filterMap lookupNameOf = newOnly evt ∧
    (mentionOutcomes env evt (extractMentions evt.blockOld)
        (extractMentions (some evt.blockChanged)) s).map Prod.fst = newOnly evt ∧
    (BlockChanged env L s evt).errs
      = (mentionOutcomes env evt (extractMentions evt.blockOld)
          (extractMentions (some evt.blockChanged)) s).filterMap
          (fun p => p.2.map fun e => (p.1, e)) ∧
    (errorOrNil (BlockChanged env L s evt).errs = none ↔
      ∀ p ∈ mentionOutcomes env evt (extractMentions evt.blockOld)
          (extractMentions (some evt.blockChanged)) s, p.2 = none) := by
  refine ⟨blockChanged_trace_lookups env L s evt b c hb hcard hd ht, ?_, ?_, ?_⟩
  · rw [mentionOutcomes_fst]
    simp [newOnly]
  · exact blockChanged_errs_eq env L s evt b c hb hcard hd ht
  · rw [blockChanged_errs_eq env L s evt b c hb hcard hd ht]
    simp [errorOrNil, List.isEmpty_iff, List.filterMap_eq_nil_iff, Option.map_eq_none']

/-- Witness for C4 on a concrete event whose only delivery attempt fails
in the transport. -/
theorem failures_collected_witness :
    (BlockChanged envPostFails [listenerOk] [aliceRow] evtA).trace.filterMap lookupNameOf
        = newOnly evtA ∧
    (mentionOutcomes envPostFails evtA (extractMentions evtA.blockOld)
        (extractMentions (some evtA.blockChanged)) [aliceRow]).map Prod.fst = newOnly evtA ∧
    (BlockChanged envPostFails [listenerOk] [aliceRow] evtA).errs
      = (mentionOutcomes envPostFails evtA (extractMentions evtA.blockOld)
          (extractMentions (some evtA.blockChanged)) [aliceRow]).filterMap
          (fun p => p.2.map fun e => (p.1, e)) ∧
    (errorOrNil (BlockChanged envPostFails [listenerOk] [aliceRow] evtA).errs = none ↔
      ∀ p ∈ mentionOutcomes envPostFails evtA (extractMentions evtA.blockOld)
          (extractMentions (some evtA.blockChanged)) [aliceRow], p.2 = none) :=
  failures_collected_not_short_circuited envPostFails [listenerOk] [aliceRow] evtA
    boardA cardA rfl rfl (by decide) (Or.inl rfl)

/-- Claim C5: a username present in both the old and new block text is never
processed: its delivery pipeline is never entered (no user lookup is
recorded for it, and every per-username effect begins with that lookup);
and a call whose old and new blocks are identical performs no deliveries
and no side effects at all. -/
theorem preexisting_mentions_not_redelivered {σ : Type} (env : Env σ) (L : List Listener)
    (s : σ) (evt : BlockChangeEvent) (b : Board) (c : Card)
    (hb : evt.board = some b) (hcard : evt.card = some c) (hd : evt.action ≠ .delete)
    (ht : evt.blockChanged.type = .typeText ∨ evt.blockChanged.type = .typeComment ∨
      evt.blockChanged.type = .typeImage) :
    (∀ u, u ∈ extractMentions (some evt.blockChanged) →
        u ∈ extractMentions evt.blockOld →
        Effect.userLookup u ∉ (BlockChanged env L s evt).trace) ∧
    (evt.blockOld = some evt.blockChanged →
        BlockChanged env L s evt = { errs := [], state := s, trace := [] }) := by
  constructor
  · intro u _ hold hmem
    have h1 : u ∈ (BlockChanged env L s evt).trace.filterMap lookupNameOf :=
      List.mem_filterMap.mpr ⟨_, hmem, rfl⟩
    rw [blockChanged_trace_lookups env L s evt b c hb hcard hd ht] at h1
    simp [newOnly, List.mem_filter, hold] at h1
  · intro hsame
    rw [blockChanged_eq_loop env L s evt b c hb hcard hd ht]
    by_cases he : (extractMentions (some evt.blockChanged)).isEmpty
    · simp [he]
    · rw [if_neg he, hsame]
      exact mentionLoop_all_skipped env L evt _ _ s [] [] fun v hv => by simpa using hv

/-- Witness for C5: an event whose old block equals its new block makes
BlockChanged a complete no-op. -/
theorem preexisting_mentions_witness :
    (∀ u, u ∈ extractMentions (some ({ evtA with blockOld := some evtA.blockChanged } :
          BlockChangeEvent).blockChanged) →
        u ∈ extractMentions ({ evtA with blockOld := some evtA.blockChanged } :
          BlockChangeEvent).blockOld →
        Effect.userLookup u ∉
          (BlockChanged envA [listenerOk] []
            { evtA with blockOld := some evtA.blockChanged }).trace) ∧
    (({ evtA with blockOld := some evtA.blockChanged } : BlockChangeEvent).blockOld
        = some ({ evtA with blockOld := some evtA.blockChanged } : BlockChangeEvent).blockChanged →
      BlockChanged envA [listenerOk] [] { evtA with blockOld := some evtA.blockChanged }
        = { errs := [], state := [], trace := [] }) :=
  preexisting_mentions_not_redelivered envA [listenerOk] []
    { evtA with blockOld := some evtA.blockChanged } boardA cardA rfl rfl (by decide)
    (Or.inl rfl)

/-- Every index of the listener snapshot receives its invocation in the
fan-out, with the delivered user id and the recorded outcome of its own
(recovered) call. -/
theorem fanOut_mem_call (L : List Listener) (uid : String) (evt : BlockChangeEvent)
    (i : Nat) (h : i < L.length) :
    Effect.listenerCall i uid (safeCallListener (L.get ⟨i, h⟩) uid evt)
      ∈ fanOut L uid evt := by
  have hlen : i < (fanOut L uid evt).length := by
    simpa [fanOut, List.enum_length] using h
  have hget : (fanOut L uid evt).get ⟨i, hlen⟩
      = Effect.listenerCall i uid (safeCallListener (L.get ⟨i, h⟩) uid evt) := by
    simp [fanOut, List.get_eq_getElem, List.getElem_map, List.getElem_enum]
  rw [← hget]
  exact List.get_mem _ _ _

/-- Claim C1 counterexample: with the plugin delivery, a delivery attempt whose
CreatePost step fails returns the mentioned user id together with the
transport error, so BlockChanged both aggregates the failure and still
fans the event out to the listeners: a failed delivery attempt does
trigger listener fan-out. -/
theorem failed_delivery_still_fans_out_cex :
    errorOrNil (BlockChanged envPostFails [listenerOk] [aliceRow] evtA).errs
      = some [("alice", .deliveryFailed "transport error")] ∧
    Effect.listenerCall 0 "alice-id" .ok
      ∈ (BlockChanged envPostFails [listenerOk] [aliceRow] evtA).trace := by
  decide

/-- Claim C1 amended: listener fan-out is keyed on the returned user id, not on
error-free delivery: for each processed username, the listeners are all
invoked (with the returned user id and the original event) exactly when
deliverMentionNotification returns a non-empty user id, regardless of the
error component; and every listener call recorded by BlockChanged carries
a non-empty user id. -/
theorem fanout_keyed_on_nonempty_userid {σ : Type} (env : Env σ) (L : List Listener)
    (s : σ) (evt : BlockChangeEvent) (username : String) :
    ((deliverMentionNotification env s username
        (extractText evt.blockChanged.title username newLimits) evt).userID = "" →
      (processMention env L s evt username).2.2
        = (deliverMentionNotification env s username
            (extractText evt.blockChanged.title username newLimits) evt).trace) ∧
    ((deliverMentionNotification env s username
        (extractText evt.blockChanged.title username newLimits) evt).userID ≠ "" →
      (processMention env L s evt username).2.2
        = (deliverMentionNotification env s username
            (extractText evt.blockChanged.title username newLimits) evt).trace
          ++ fanOut L (deliverMentionNotification env s username
              (extractText evt.blockChanged.title username newLimits) evt).userID evt ∧
      ∀ i, ∀ h : i < L.length,
        Effect.listenerCall i
            (deliverMentionNotification env s username
              (extractText evt.blockChanged.title username newLimits) evt).userID
            (safeCallListener (L.get ⟨i, h⟩)
              (deliverMentionNotification env s username
                (extractText evt.blockChanged.title username newLimits) evt).userID evt)
          ∈ (processMention env L s evt username).2.2) ∧
    (∀ i uid out,
      Effect.listenerCall i uid out ∈ (BlockChanged env L s evt).trace → uid ≠ "") := by
  refine ⟨?_, ?_, ?_⟩
  · intro h0
    simp only [processMention, if_pos h0]
  · intro h0
    constructor
    · simp only [processMention, if_neg h0]
    · intro i h
      simp only [processMention, if_neg h0]
      exact List.mem_append_right _ (fanOut_mem_call L _ evt i h)
  · intro i uid out hmem
    simp only [BlockChanged] at hmem
    repeat' split at hmem
    all_goals first
      | simp at hmem
      | exact mentionLoop_listener_uid env L evt _ _ _ _ _
          (fun j vid o hv => absurd hv (List.not_mem_nil _)) i uid out hmem

/-- Witness for the amended C1 at a concrete event and environment. -/
theorem fanout_keyed_witness :
    ((deliverMentionNotification envPostFails [aliceRow] "alice"
        (extractText evtA.blockChanged.title "alice" newLimits) evtA).userID = "" →
      (processMention envPostFails [listenerOk] [aliceRow] evtA "alice").2.2
        = (deliverMentionNotification envPostFails [aliceRow] "alice"
            (extractText evtA.blockChanged.title "alice" newLimits) evtA).trace) ∧
    ((deliverMentionNotification envPostFails [aliceRow] "alice"
        (extractText evtA.blockChanged.title "alice" newLimits) evtA).userID ≠ "" →
      (processMention envPostFails [listenerOk] [aliceRow] evtA "alice").2.2
        = (deliverMentionNotification envPostFails [aliceRow] "alice"
            (extractText evtA.blockChanged.title "alice" newLimits) evtA).trace
          ++ fanOut [listenerOk] (deliverMentionNotification envPostFails [aliceRow] "alice"
              (extractText evtA.blockChanged.title "alice" newLimits) evtA).userID evtA ∧
      ∀ i, ∀ h : i < [listenerOk].length,
        Effect.listenerCall i
            (deliverMentionNotification envPostFails [aliceRow] "alice"
              (extractText evtA.blockChanged.title "alice" newLimits) evtA).userID
            (safeCallListener ([listenerOk].get ⟨i, h⟩)
              (deliverMentionNotification envPostFails [aliceRow] "alice"
                (extractText evtA.blockChanged.title "alice" newLimits) evtA).userID evtA)
          ∈ (processMention envPostFails [listenerOk] [aliceRow] evtA "alice").2.2) ∧
    (∀ i uid out,
      Effect.listenerCall i uid out
        ∈ (BlockChanged envPostFails [listenerOk] [aliceRow] evtA).trace → uid ≠ "") :=
  fanout_keyed_on_nonempty_userid envPostFails [listenerOk] [aliceRow] evtA "alice"

/-- Claim C8: a faulting listener is isolated.  The collected errors and the
final store state of BlockChanged do not depend on the listener snapshot
at all (so a fault changes neither), and the fan-out invokes every
listener of the snapshot: it has one entry per listener and, for every
index, the recorded call for that index is present, its outcome being the
recovered result of that listener alone. -/
theorem listener_fault_isolated {σ : Type} (env : Env σ) (s : σ) (evt : BlockChangeEvent)
    (L L' : List Listener) :
    ((BlockChanged env L s evt).errs = (BlockChanged env L' s evt).errs ∧
     (BlockChanged env L s evt).state = (BlockChanged env L' s evt).state) ∧
    (∀ uid : String, (fanOut L uid evt).length = L.length ∧
      ∀ i, ∀ h : i < L.length,
        Effect.listenerCall i uid (safeCallListener (L.get ⟨i, h⟩) uid evt)
          ∈ fanOut L uid evt) := by
  constructor
  · simp only [BlockChanged]
    repeat' split
    all_goals first
      | exact ⟨rfl, rfl⟩
      | exact mentionLoop_listener_indep env L L' evt _ _ s [] [] []
  · intro uid
    exact ⟨by simp [fanOut, List.enum_length], fun i h => fanOut_mem_call L uid evt i h⟩

/-- Witness for C8: five listeners, the second of which faults. -/
theorem listener_fault_isolated_witness :
    ((BlockChanged envA [listenerOk, listenerBad, listenerOk, listenerOk, listenerOk] [] evtA).errs
        = (BlockChanged envA [listenerOk, listenerOk, listenerOk, listenerOk, listenerOk] [] evtA).errs ∧
     (BlockChanged envA [listenerOk, listenerBad, listenerOk, listenerOk, listenerOk] [] evtA).state
        = (BlockChanged envA [listenerOk, listenerOk, listenerOk, listenerOk, listenerOk] [] evtA).state) ∧
    (∀ uid : String,
      (fanOut [listenerOk, listenerBad, listenerOk, listenerOk, listenerOk] uid evtA).length
          = [listenerOk, listenerBad, listenerOk, listenerOk, listenerOk].length ∧
      ∀ i, ∀ h : i < [listenerOk, listenerBad, listenerOk, listenerOk, listenerOk].length,
        Effect.listenerCall i uid
            (safeCallListener
              ([listenerOk, listenerBad, listenerOk, listenerOk, listenerOk].get ⟨i, h⟩) uid evtA)
          ∈ fanOut [listenerOk, listenerBad, listenerOk, listenerOk, listenerOk] uid evtA) :=
  listener_fault_isolated envA [] evtA
    [listenerOk, listenerBad, listenerOk, listenerOk, listenerOk]
    [listenerOk, listenerOk, listenerOk, listenerOk, listenerOk]

end NotifyMentions
